import Mathlib

/-!
Verification of the Orbigen orbit-visualization pipeline (`OrbigenPython.py`)
against its natural-language specification.

The embedding models the coordinate-fetch-and-parse pipeline:
  * `parse_coordinates` — the parsing phase of `get_planet_coords`
    (splitting on the `$$SOE` / `$$EOE` sentinels and on the inline
    `X =`, `Y =`, `Z =` labels, converting the numeric literals);
  * `get_planet_coords` — request construction plus parsing, with the
    network modelled as an oracle `respond : HorizonsRequest → String`
    that returns the `result` field of the decoded JSON envelope;
  * `visualize_orbits` — the single-view trace builder, returning the
    ordered list of issued requests together with either the ordered
    trace list or the first error raised;
  * `create_multi_center_visualization` — the multi-view builder with
    its per-view visibility masks.

Python strings are modelled as `List Char`; Python `str.split`,
`str.strip`, indexing (including negative indexing) and `float` are
modelled by `pySplit`, `pyStrip`, `pyGet` and `pyFloat` below.
Exceptions (`IndexError`, `ValueError`) are modelled by `Option` /
`Except`.  Python numbers are modelled by `ℚ`; `pyFloat` covers finite
decimal literals with optional sign, fraction and exponent (the special
values `inf` / `nan` and digit underscores are not modelled, and
`splitlines` is modelled as splitting on a newline character, which the
per-line `strip` makes equivalent for CR-LF input).
-/

namespace Orbigen

/-- Python `str.isspace`-style whitespace, as used by `str.strip()`. -/
def pyIsSpace (c : Char) : Bool :=
  c == ' ' || c == '\t' || c == '\n' || c == '\r' || c == '\x0b' || c == '\x0c'

/-- `listStartsWith l p` is true when `p` is an initial segment of `l`. -/
def listStartsWith : List Char → List Char → Bool
  | _, [] => true
  | [], _ :: _ => false
  | c :: cs, p :: ps => c == p && listStartsWith cs ps

/-- Worker for `pySplit`: scans left to right, cutting at each
non-overlapping occurrence of `sep`, exactly like Python `str.split(sep)`.
The `fuel` argument only makes the recursion structural (every step
consumes at least one character, so `l.length` fuel always suffices). -/
def pySplitAux (sep : List Char) : ℕ → List Char → List Char → List (List Char)
  | _, acc, [] => [acc.reverse]
  | 0, acc, l => [acc.reverse ++ l]
  | fuel + 1, acc, c :: cs =>
    if 0 < sep.length ∧ listStartsWith (c :: cs) sep = true then
      acc.reverse :: pySplitAux sep fuel [] (cs.drop (sep.length - 1))
    else
      pySplitAux sep fuel (c :: acc) cs

/-- Python `s.split(sep)` for a non-empty separator. -/
def pySplit (l sep : List Char) : List (List Char) :=
  pySplitAux sep l.length [] l

/-- Python `s.strip()`. -/
def pyStrip (l : List Char) : List Char :=
  ((l.dropWhile pyIsSpace).reverse.dropWhile pyIsSpace).reverse

/-- Numeric value of a digit string (most significant digit first). -/
def digitsVal (ds : List Char) : ℕ :=
  ds.foldl (fun a c => 10 * a + (c.toNat - 48)) 0

/-- Consume an optional leading sign; returns `(isNegative, rest)`. -/
def takeSign : List Char → Bool × List Char
  | '-' :: rest => (true, rest)
  | '+' :: rest => (false, rest)
  | cs => (false, cs)

/-- Python `float(s)` on finite decimal literals: optional sign, digits
with an optional single point (at least one digit overall), and an
optional integer exponent.  Returns `none` exactly when Python raises
`ValueError` on such literals. -/
def pyFloat (s : List Char) : Option ℚ :=
  let sgn := takeSign s
  let ip := sgn.2.takeWhile Char.isDigit
  let cs2 := sgn.2.dropWhile Char.isDigit
  let fp := match cs2 with
    | '.' :: rest => rest.takeWhile Char.isDigit
    | _ => []
  let cs3 := match cs2 with
    | '.' :: rest => rest.dropWhile Char.isDigit
    | _ => cs2
  if ip = [] ∧ fp = [] then none
  else
    let base : ℤ := if sgn.1 then -(digitsVal (ip ++ fp) : ℤ) else (digitsVal (ip ++ fp) : ℤ)
    match cs3 with
    | [] => some (Rat.divInt base ((10 : ℤ) ^ fp.length))
    | e :: rest =>
      if e == 'e' || e == 'E' then
        let esgn := takeSign rest
        let ed := esgn.2.takeWhile Char.isDigit
        let r2 := esgn.2.dropWhile Char.isDigit
        if ed = [] ∨ r2 ≠ [] then none
        else if esgn.1 then some (Rat.divInt base ((10 : ℤ) ^ (fp.length + digitsVal ed)))
        else some (Rat.divInt (base * (10 : ℤ) ^ digitsVal ed) ((10 : ℤ) ^ fp.length))
      else none

/-- A parsed `[x, y, z]` coordinate sample, in AU. -/
abbrev Coord := ℚ × ℚ × ℚ

/-- Start-of-ephemeris sentinel. -/
def SOEmark : List Char := "$$SOE".data
/-- End-of-ephemeris sentinel. -/
def EOEmark : List Char := "$$EOE".data
/-- Inline label of the x component on a position line. -/
def xLabel : List Char := "X =".data
/-- Inline label of the y component on a position line. -/
def yLabel : List Char := "Y =".data
/-- Inline label of the z component on a position line. -/
def zLabel : List Char := "Z =".data

/-- One record's position line (source lines 47–51):
`x` from `pos_line.split("X =")[1].split("Y =")[0].strip()`,
`y` from `pos_line.split("Y =")[1].split("Z =")[0].strip()`,
`z` from `pos_line.split("Z =")[1].strip()`, each through `float`. -/
def parsePosLine (pos_line : List Char) : Option Coord := do
  let xseg ← (pySplit pos_line xLabel)[1]?
  let yseg ← (pySplit pos_line yLabel)[1]?
  let zseg ← (pySplit pos_line zLabel)[1]?
  let x ← pyFloat (pyStrip ((pySplit xseg yLabel).headD []))
  let y ← pyFloat (pyStrip ((pySplit yseg zLabel).headD []))
  let z ← pyFloat (pyStrip zseg)
  some (x, y, z)

/-- The body of the record loop (source lines 46–51), iterated over the
list of processed indices: each index `i` reads `lines[i+1]` (raising
`IndexError`, i.e. `none`, when out of range) and parses it as a
position line. -/
def parseLoop (lines : List (List Char)) : List ℕ → Option (List Coord)
  | [] => some []
  | i :: rest =>
    match lines[i + 1]? with
    | none => none
    | some pos_line =>
      match parsePosLine pos_line with
      | none => none
      | some c => (parseLoop lines rest).map (fun cs => c :: cs)

/-- The indices visited by `range(0, len(lines), 4)` (source line 46). -/
def loopIdxs (n : ℕ) : List ℕ :=
  List.range' 0 ((n + 3) / 4) 4

/-- Line extraction from the text after the start sentinel (source lines
43–44): cut at `$$EOE` (taking everything when the end sentinel is
missing), strip, split into lines, strip each line and drop blanks. -/
def extractLines (afterS : List Char) : List (List Char) :=
  let data_section := (pySplit afterS EOEmark).headD []
  ((pySplit (pyStrip data_section) ['\n']).map pyStrip).filter (fun l => !l.isEmpty)

/-- The parsing phase of `get_planet_coords` (source lines 41–53),
applied to the `result` field of the provider's JSON envelope.
`result.split("$$SOE")[1]` raises `IndexError` (modelled as `none`)
when the start sentinel is absent. -/
def parseCoordsChars (text : List Char) : Option (List Coord) :=
  match (pySplit text SOEmark)[1]? with
  | none => none
  | some afterS =>
    let lines := extractLines afterS
    parseLoop lines (loopIdxs lines.length)

/-- `parse_coordinates` on the envelope's `result` string. -/
def parse_coordinates (s : String) : Option (List Coord) :=
  parseCoordsChars s.data

/-! ## Ephemeris client and scene assembler -/

/-- One entry of the `planets` configuration list: provider catalog id,
display name and display color. -/
structure Body where
  id : String
  name : String
  color : String
deriving DecidableEq

/-- The query parameters assembled by `get_planet_coords`
(source lines 22–32). -/
structure HorizonsRequest where
  format : String
  COMMAND : String
  CENTER : String
  MAKE_EPHEM : String
  EPHEM_TYPE : String
  OUT_UNITS : String
  START_TIME : String
  STOP_TIME : String
  STEP_SIZE : String
deriving DecidableEq

/-- Default `start` argument of `get_planet_coords`. -/
def defaultStart : String := "1999-10-15"
/-- Default `stop` argument of `get_planet_coords`. -/
def defaultStop : String := "2083-10-15"
/-- Default `step` argument of `get_planet_coords`. -/
def defaultStep : String := "1d"

/-- The request `get_planet_coords` issues for the given arguments. -/
def buildRequest (target center start stop step : String) : HorizonsRequest :=
  ⟨"json", target, center, "YES", "VECTORS", "AU-D", start, stop, step⟩

/-- The request issued with the default time window, as in the calls
`get_planet_coords(planet['id'], center_planet_id)` of the assemblers. -/
def defaultRequest (target center : String) : HorizonsRequest :=
  buildRequest target center defaultStart defaultStop defaultStep

/-- `get_planet_coords` (source lines 6–53).  The network and the JSON
envelope decoding are modelled by the oracle
`respond : HorizonsRequest → String`, which maps the issued request to
the `result` field of the decoded envelope.  The function
unconditionally issues exactly one request (returned in the first
component) and parses the response; a parse failure is `none`. -/
def get_planet_coords (respond : HorizonsRequest → String)
    (target center start stop step : String) :
    HorizonsRequest × Option (List Coord) :=
  let params := buildRequest target center start stop step
  (params, parse_coordinates (respond params))

/-- Python list indexing `l[i]`, including negative-index resolution:
`l[i]` is `l[len(l)+i]` for `i < 0`, and `IndexError` (`none`) when the
resolved position is out of range. -/
def pyGet {α : Type} (l : List α) (i : ℤ) : Option α :=
  let j : ℤ := if i < 0 then (l.length : ℤ) + i else i
  if j < 0 then none else l[j.toNat]?

/-- The single origin sample used for the reference body's trace. -/
def origin : Coord := (0, 0, 0)

/-- One scatter trace handed to the rendering collaborator: display
name and color, whether it is the degenerate origin marker, and its
coordinate samples.  (Purely stylistic attributes — line width, marker
size, initial visibility — are not modelled.) -/
structure Trace where
  name : String
  color : String
  isMarker : Bool
  samples : List Coord
deriving DecidableEq

/-- The errors the assemblers can raise: `indexError` for an invalid
list index (Python `IndexError`), `parseError` for a failed fetch/parse
inside `get_planet_coords`, and `zipError` for the unpacking
`x, y, z = zip(*coords)`, which raises `ValueError` when `coords` is
empty.  The last two carry the (target, center) pair of the request. -/
inductive VizError where
  | indexError : VizError
  | parseError : String → String → VizError
  | zipError : String → String → VizError
deriving DecidableEq

deriving instance DecidableEq for Except

/-- The per-body loop of `visualize_orbits` (source lines 83–102):
`i` is the running `enumerate` position compared against the raw
`center_index` argument `k`.  Returns the requests issued (in order,
up to the first error) and either the traces in body order or the
first error raised. -/
def vizLoop (respond : HorizonsRequest → String) (cid cname ccolor : String) (k : ℤ) :
    List Body → ℤ → List HorizonsRequest × Except VizError (List Trace)
  | [], _ => ([], .ok [])
  | b :: rest, i =>
    if i ≠ k then
      let fr := get_planet_coords respond b.id cid defaultStart defaultStop defaultStep
      match fr.2 with
      | none => ([fr.1], .error (.parseError b.id cid))
      | some coords =>
        if coords.isEmpty then ([fr.1], .error (.zipError b.id cid))
        else
          let next := vizLoop respond cid cname ccolor k rest (i + 1)
          (fr.1 :: next.1, next.2.map (fun ts => ⟨b.name, b.color, false, coords⟩ :: ts))
    else
      let next := vizLoop respond cid cname ccolor k rest (i + 1)
      (next.1, next.2.map (fun ts => ⟨cname, ccolor, true, [origin]⟩ :: ts))

/-- `visualize_orbits` (source lines 67–136): looks up the reference
body (`IndexError` when `center_index` is unresolvable) and builds one
trace per body — a fetched line trace for every non-reference body and
a single origin marker for the reference body.  Returns the issued
requests together with the outcome. -/
def visualize_orbits (respond : HorizonsRequest → String)
    (planets_config : List Body) (center_index : ℤ) :
    List HorizonsRequest × Except VizError (List Trace) :=
  match pyGet planets_config center_index with
  | none => ([], .error .indexError)
  | some cb => vizLoop respond cb.id cb.name cb.color center_index planets_config 0

/-- The dead `coords_by_center` loop of the multi-view builder (source
lines 149–152): it resolves `planets_config[center_idx]` for every
requested index before any fetch, so an out-of-range index raises
`IndexError` eagerly. -/
def resolveCenters (cfg : List Body) : List ℤ → Option (List Body)
  | [] => some []
  | ci :: rest =>
    match pyGet cfg ci with
    | none => none
    | some b => (resolveCenters cfg rest).map (fun bs => b :: bs)

/-- The per-body loop of one view of the multi-view builder (source
lines 166–189).  `cnt` is `len(fig.data)` before the current trace is
appended, so each iteration records `len(fig.data) - 1 = cnt` in the
view's trace group. -/
def viewLoop (respond : HorizonsRequest → String) (cid cname ccolor : String) (k : ℤ) :
    List Body → ℤ → ℕ → List HorizonsRequest × Except VizError (List Trace × List ℕ)
  | [], _, _ => ([], .ok ([], []))
  | b :: rest, i, cnt =>
    if i ≠ k then
      let fr := get_planet_coords respond b.id cid defaultStart defaultStop defaultStep
      match fr.2 with
      | none => ([fr.1], .error (.parseError b.id cid))
      | some coords =>
        if coords.isEmpty then ([fr.1], .error (.zipError b.id cid))
        else
          let next := viewLoop respond cid cname ccolor k rest (i + 1) (cnt + 1)
          (fr.1 :: next.1,
           next.2.map (fun p => (⟨b.name, b.color, false, coords⟩ :: p.1, cnt :: p.2)))
    else
      let next := viewLoop respond cid cname ccolor k rest (i + 1) (cnt + 1)
      (next.1, next.2.map (fun p => (⟨cname, ccolor, true, [origin]⟩ :: p.1, cnt :: p.2)))

/-- The view loop of the multi-view builder (source lines 157–191):
one pass of `viewLoop` per requested center index, accumulating the
flat trace list and one trace group per view.  `offset` is
`len(fig.data)` when the view starts. -/
def multiViewLoop (respond : HorizonsRequest → String) (cfg : List Body) :
    List ℤ → ℕ → List HorizonsRequest × Except VizError (List Trace × List (List ℕ))
  | [], _ => ([], .ok ([], []))
  | ci :: rest, offset =>
    match pyGet cfg ci with
    | none => ([], .error .indexError)
    | some cb =>
      match viewLoop respond cb.id cb.name cb.color ci cfg 0 offset with
      | (calls, .error e) => (calls, .error e)
      | (calls, .ok (ts, grp)) =>
        let next := multiViewLoop respond cfg rest (offset + ts.length)
        (calls ++ next.1, next.2.map (fun p => (ts ++ p.1, grp :: p.2)))

/-- The visibility list of one perspective button (source lines
197–200): `[False] * total` with `True` written at each of the view's
trace positions. -/
def buildMask (total : ℕ) (grp : List ℕ) : List Bool :=
  grp.foldl (fun m idx => m.set idx true) (List.replicate total false)

/-- `create_multi_center_visualization` (source lines 139–256): eager
resolution of every center index (the dead dictionary loop), then one
view per index, then one visibility mask per view.  The final layout
reads `center_indices[0]` (source line 214), so an empty index list
raises `IndexError` after building nothing.  Returns the issued
requests together with either the flat trace list and the per-view
masks, or the first error raised. -/
def create_multi_center_visualization (respond : HorizonsRequest → String)
    (planets_config : List Body) (center_indices : List ℤ) :
    List HorizonsRequest × Except VizError (List Trace × List (List Bool)) :=
  match resolveCenters planets_config center_indices with
  | none => ([], .error .indexError)
  | some _ =>
    match multiViewLoop respond planets_config center_indices 0 with
    | (calls, .error e) => (calls, .error e)
    | (calls, .ok (traces, groups)) =>
      match center_indices with
      | [] => (calls, .error .indexError)
      | _ :: _ => (calls, .ok (traces, groups.map (buildMask traces.length)))

/-- The requests one full pass of a per-body loop issues: one
default-window request per body whose running position differs from the
raw center index `k`, in body order. -/
def callsSpec (cid : String) (k : ℤ) : List Body → ℤ → List HorizonsRequest
  | [], _ => []
  | b :: rest, i =>
    if i ≠ k then defaultRequest b.id cid :: callsSpec cid k rest (i + 1)
    else callsSpec cid k rest (i + 1)

/-! ## Well-formed provider responses

A well-formed response, as described by the specification, is a header,
the start sentinel, newline-separated record lines, the end sentinel
and a footer.  `joinLines` and `mkResponse` build such a response from
its parts. -/

/-- Join lines with single newlines (no trailing newline). -/
def joinLines : List (List Char) → List Char
  | [] => []
  | [l] => l
  | l :: ls => l ++ '\n' :: joinLines ls

/-- The data block of a well-formed response: the record lines wrapped
in the newlines adjacent to the sentinels. -/
def dataBlock (lines : List (List Char)) : List Char :=
  '\n' :: joinLines lines ++ ['\n']

/-- Everything after the start sentinel of a well-formed response. -/
def responseTail (lines : List (List Char)) (footer : List Char) : List Char :=
  '\n' :: joinLines lines ++ '\n' :: EOEmark ++ footer

/-- Assemble a provider response from header, record lines and footer. -/
def mkResponse (header : List Char) (lines : List (List Char)) (footer : List Char) :
    List Char :=
  header ++ SOEmark ++ responseTail lines footer

/-- The non-blank stripped data-block lines that the parsing phase
extracts from a response text (used to state the failure conditions). -/
def dataLines (text : List Char) : List (List Char) :=
  extractLines ((pySplit text SOEmark).getD 1 [])

/-- The conditions under which the parsing phase fails: the start
sentinel is missing, or some processed record (line offset divisible by
the group size 4 and below the line count) has its position line out of
range or malformed (missing label or non-numeric value). -/
def parse_fails_spec (text : List Char) : Prop :=
  (pySplit text SOEmark)[1]? = none ∨
  ∃ i, i % 4 = 0 ∧ i < (dataLines text).length ∧
    ((dataLines text)[i + 1]?).bind parsePosLine = none

/-! ## Lemmas about the Python string primitives -/

theorem listStartsWith_append (p q : List Char) : listStartsWith (p ++ q) p = true := by
  induction p with
  | nil => simp [listStartsWith]
  | cons c cs ih => simp [listStartsWith, ih]

theorem pySplitAux_fuel (sep : List Char) :
    ∀ f1 : ℕ, ∀ f2 acc (l : List Char), l.length ≤ f1 → l.length ≤ f2 →
      pySplitAux sep f1 acc l = pySplitAux sep f2 acc l := by
  intro f1
  induction f1 with
  | zero =>
    intro f2 acc l h1 _
    have : l = [] := List.length_eq_zero.mp (Nat.le_zero.mp h1)
    subst this
    cases f2 <;> simp [pySplitAux]
  | succ f ih =>
    intro f2 acc l h1 h2
    cases l with
    | nil => cases f2 <;> simp [pySplitAux]
    | cons c cs =>
      cases f2 with
      | zero => simp at h2
      | succ f2 =>
        simp only [pySplitAux]
        split
        · rw [ih f2 [] (cs.drop (sep.length - 1))
            (le_trans (by simpa using List.length_drop_le _ _) (Nat.le_of_succ_le_succ h1))
            (le_trans (by simpa using List.length_drop_le _ _) (Nat.le_of_succ_le_succ h2))]
        · exact ih f2 (c :: acc) cs (Nat.le_of_succ_le_succ h1) (Nat.le_of_succ_le_succ h2)

theorem pySplitAux_append (sep : List Char) (hsep : sep ≠ []) :
    ∀ (h acc : List Char) (rest : List Char) (fuel : ℕ),
      (h ++ sep ++ rest).length ≤ fuel →
      (∀ i < h.length, listStartsWith ((h ++ sep ++ rest).drop i) sep = false) →
      pySplitAux sep fuel acc (h ++ sep ++ rest) = (acc.reverse ++ h) :: pySplit rest sep := by
  intro h
  induction h with
  | nil =>
    intro acc rest fuel hfuel _
    obtain ⟨s, ss, rfl⟩ : ∃ s ss, sep = s :: ss := by
      cases sep with
      | nil => exact absurd rfl hsep
      | cons s ss => exact ⟨s, ss, rfl⟩
    cases fuel with
    | zero => simp at hfuel
    | succ f =>
      simp only [List.nil_append, List.cons_append, pySplitAux, List.append_eq]
      rw [if_pos ⟨by simp, by simpa using listStartsWith_append (s :: ss) rest⟩]
      have hdrop : (ss ++ rest).drop ((s :: ss).length - 1) = rest := by
        simpa using List.drop_left ss rest
      simp only [List.length_cons] at hdrop ⊢
      rw [hdrop, pySplit,
        pySplitAux_fuel (s :: ss) f rest.length [] rest (by simp at hfuel ⊢; omega) le_rfl]
      simp
  | cons c h' ih =>
    intro acc rest fuel hfuel hh
    cases fuel with
    | zero => simp at hfuel
    | succ f =>
      simp only [List.cons_append, pySplitAux, List.append_eq]
      rw [if_neg]
      · have := ih (c :: acc) rest f (by simp at hfuel ⊢; omega)
          (fun i hi => by simpa using hh (i + 1) (by simpa using hi))
        simpa [List.append_assoc] using this
      · intro hcon
        have h0 := hh 0 (by simp)
        simp only [List.drop_zero, List.cons_append, List.append_assoc] at h0
        simp only [List.append_assoc] at hcon
        rw [h0] at hcon
        exact absurd hcon.2 (by simp)

theorem pySplitAux_no_occurrence (sep : List Char) :
    ∀ (l : List Char), (∀ i < l.length, listStartsWith (l.drop i) sep = false) →
      ∀ fuel acc, pySplitAux sep fuel acc l = [acc.reverse ++ l] := by
  intro l
  induction l with
  | nil => intro _ fuel acc; cases fuel <;> simp [pySplitAux]
  | cons c cs ih =>
    intro hno fuel acc
    cases fuel with
    | zero => simp [pySplitAux]
    | succ f =>
      simp only [pySplitAux]
      rw [if_neg]
      · rw [ih (fun i hi => by simpa using hno (i + 1) (by simpa using hi)) f (c :: acc)]
        simp
      · intro hcon
        have h0 := hno 0 (by simp)
        simp at h0
        rw [h0] at hcon
        exact absurd hcon.2 (by simp)

theorem pySplit_no_occurrence (sep l : List Char)
    (hno : ∀ i < l.length, listStartsWith (l.drop i) sep = false) :
    pySplit l sep = [l] := by
  simpa using pySplitAux_no_occurrence sep l hno l.length []

theorem listStartsWith_newline (c : Char) (cs : List Char) :
    listStartsWith (c :: cs) ['\n'] = (c == '\n') := by
  simp [listStartsWith]

theorem no_newline_no_occurrence {l : List Char} (h : '\n' ∉ l) :
    ∀ i < l.length, listStartsWith (l.drop i) ['\n'] = false := by
  intro i hi
  cases hd : l.drop i with
  | nil => simp [listStartsWith]
  | cons c cs =>
    have hc : c ∈ l := by
      have : c ∈ l.drop i := by rw [hd]; exact List.mem_cons_self c cs
      exact List.mem_of_mem_drop this
    rw [listStartsWith_newline]
    simp only [beq_eq_false_iff_ne, ne_eq]
    intro hcn
    exact h (hcn ▸ hc)

theorem pySplitAux_newline :
    ∀ (l : List Char) (t : List Char) (acc : List Char) (fuel : ℕ), '\n' ∉ l →
      (l ++ '\n' :: t).length ≤ fuel →
      pySplitAux ['\n'] fuel acc (l ++ '\n' :: t) = (acc.reverse ++ l) :: pySplit t ['\n'] := by
  intro l
  induction l with
  | nil =>
    intro t acc fuel _ hfuel
    cases fuel with
    | zero => simp at hfuel
    | succ f =>
      simp only [List.nil_append, pySplitAux]
      rw [if_pos ⟨by simp, by simp [listStartsWith_newline]⟩]
      simp only [List.length_singleton, Nat.sub_self, List.drop_zero]
      rw [pySplit, pySplitAux_fuel ['\n'] f t.length [] t (by simp at hfuel; omega) le_rfl]
      simp
  | cons c l' ih =>
    intro t acc fuel hnl hfuel
    cases fuel with
    | zero => simp at hfuel
    | succ f =>
      have hc : (c == '\n') = false := by
        simp only [beq_eq_false_iff_ne, ne_eq]
        intro hcn
        exact hnl (by simp [hcn])
      simp only [List.cons_append, pySplitAux, List.append_eq]
      rw [if_neg]
      · rw [ih t (c :: acc) f (fun hm => hnl (List.mem_cons_of_mem c hm))
          (by simp at hfuel ⊢; omega)]
        simp
      · intro hcon
        rw [listStartsWith_newline] at hcon
        rw [hc] at hcon
        exact absurd hcon.2 (by simp)

theorem pySplit_joinLines :
    ∀ ls : List (List Char), ls ≠ [] → (∀ l ∈ ls, '\n' ∉ l) →
      pySplit (joinLines ls) ['\n'] = ls := by
  intro ls
  induction ls with
  | nil => intro h; exact absurd rfl h
  | cons l rest ih =>
    intro _ hnl
    cases rest with
    | nil =>
      simp only [joinLines]
      exact pySplit_no_occurrence ['\n'] l (no_newline_no_occurrence (hnl l (by simp)))
    | cons l2 rest' =>
      have hjoin : joinLines (l :: l2 :: rest') = l ++ '\n' :: joinLines (l2 :: rest') := rfl
      rw [hjoin, pySplit, pySplitAux_newline l (joinLines (l2 :: rest')) [] _
        (hnl l (by simp)) le_rfl]
      simp only [List.reverse_nil, List.nil_append, List.cons.injEq, true_and]
      exact ih (by simp) (fun x hx => hnl x (List.mem_cons_of_mem l hx))

/-! ## Lemmas about the record loop -/

theorem parseLoop_ok (lines : List (List Char)) (val : ℕ → Coord) :
    ∀ idxs : List ℕ,
      (∀ i ∈ idxs, (lines[i + 1]?).bind parsePosLine = some (val i)) →
      parseLoop lines idxs = some (idxs.map val) := by
  intro idxs
  induction idxs with
  | nil => intro _; rfl
  | cons i rest ih =>
    intro h
    have hi := h i (by simp)
    simp only [parseLoop]
    cases hg : lines[i + 1]? with
    | none => rw [hg] at hi; simp at hi
    | some pl =>
      rw [hg] at hi
      simp only [Option.some_bind] at hi
      simp [hg, hi, ih (fun j hj => h j (List.mem_cons_of_mem i hj))]

theorem parseLoop_eq_none (lines : List (List Char)) :
    ∀ idxs : List ℕ,
      (parseLoop lines idxs = none ↔
        ∃ i ∈ idxs, (lines[i + 1]?).bind parsePosLine = none) := by
  intro idxs
  induction idxs with
  | nil => simp [parseLoop]
  | cons i rest ih =>
    simp only [parseLoop]
    cases hg : lines[i + 1]? with
    | none => simp [hg]
    | some pl =>
      cases hp : parsePosLine pl with
      | none => simp [hg, hp]
      | some c => simp [hg, hp, ih]

theorem mem_loopIdxs (n i : ℕ) : i ∈ loopIdxs n ↔ (i % 4 = 0 ∧ i < n) := by
  simp only [loopIdxs, List.mem_range']
  constructor
  · rintro ⟨t, ht, rfl⟩
    omega
  · rintro ⟨h4, hn⟩
    exact ⟨i / 4, by omega, by omega⟩

theorem range'_map_val (val : ℕ → Coord) :
    ∀ (k s : ℕ), (List.range' s k 4).map val = (List.range k).map (fun j => val (s + 4 * j)) := by
  intro k
  induction k with
  | zero => intro s; simp
  | succ k ih =>
    intro s
    rw [List.range'_succ, List.range_succ_eq_map]
    simp only [List.map_cons, List.map_map]
    refine congrArg₂ _ (by simp) ?_
    rw [ih (s + 4)]
    refine List.map_congr_left (fun j _ => ?_)
    simp only [Function.comp_apply]
    refine congrArg val ?_
    omega

/-! ## Fixtures -/

/-- Fixture: response with no start sentinel. -/
def respMissingSOE : String := "API source: NASA. X = 1 Y = 2 Z = 3 $$EOE"
/-- Fixture: well-delimited response whose record has a non-numeric x value. -/
def respNonNumeric : String :=
  "h$$SOE\n2459000.5 = A.D.\nX = abc Y = 2.0 Z = 3.0\nVX= 0\nLT= 0\n$$EOE\nf"
/-- Fixture: both sentinels present, data block blank. -/
def respEmptyBlock : String := "h$$SOE\n   \n$$EOE\nf"
/-- Fixture: start sentinel only, one well-formed record, no end sentinel. -/
def respMissingEOE : String := "h$$SOE\n2459000.5 = A.D.\nX = 1 Y = 2 Z = 3\nVX= 0\nLT= 0"

/-- Fixture: a well-formed one-record response (the record's position
line carries the spec's example values `1.5`, `-2.25`, `0.0`). -/
def demoResponse : String :=
  "API VERSION 1.2$$SOE\n2459000.5 = A.D. 2020\nX = 1.5 Y =-2.25 Z = 0.0\nVX= 1.0\nLT= 0.0\n$$EOE\nfooter"

/-- Fixture oracle: the provider answers every request with
`demoResponse`. -/
def demoRespond : HorizonsRequest → String := fun _ => demoResponse

/-- Fixture configuration: the spec's end-to-end scenario bodies. -/
def demoCfg : List Body :=
  [⟨"10", "Sun", "yellow"⟩, ⟨"399", "Earth", "blue"⟩, ⟨"499", "Mars", "red"⟩]

/-- The sample parsed from `demoResponse` (that is, `(1.5, -2.25, 0.0)`). -/
def demoSample : Coord := (Rat.divInt 3 2, Rat.divInt (-9) 4, 0)

/-- Fixture record lines for a constructed well-formed response. -/
def demoLines : List (List Char) :=
  ["2459000.5 = A.D. 2020-May-31".data, "X = 1.5 Y =-2.25 Z = 0.0".data,
   "VX= 1.0".data, "LT= 2.0".data]

/-- The traces `visualize_orbits` produces on the fixture scenario
(bodies Sun, Earth, Mars; reference index 1; fixture oracle). -/
def demoTraces : List Trace :=
  [⟨"Sun", "yellow", false, [demoSample]⟩,
   ⟨"Earth", "blue", true, [origin]⟩,
   ⟨"Mars", "red", false, [demoSample]⟩]

/-- The flat trace list of the fixture two-view run (Sun-centric view,
then Earth-centric view). -/
def demoMultiTraces : List Trace :=
  [⟨"Sun", "yellow", true, [origin]⟩,
   ⟨"Earth", "blue", false, [demoSample]⟩,
   ⟨"Mars", "red", false, [demoSample]⟩,
   ⟨"Sun", "yellow", false, [demoSample]⟩,
   ⟨"Earth", "blue", true, [origin]⟩,
   ⟨"Mars", "red", false, [demoSample]⟩]

/-- The visibility masks of the fixture two-view run. -/
def demoMasks : List (List Bool) :=
  [[true, true, true, false, false, false],
   [false, false, false, true, true, true]]

/-! ## Lemmas about `pyStrip` -/

theorem dropWhile_fixed_head {p : Char → Bool} {c : Char} {cs : List Char}
    (h : List.dropWhile p (c :: cs) = c :: cs) : p c = false := by
  by_contra hc
  have hc' : p c = true := by simpa using hc
  rw [List.dropWhile_cons_of_pos hc'] at h
  have hle := (List.dropWhile_sublist (l := cs) p).length_le
  rw [h] at hle
  simp at hle

theorem dropWhile_fixed_of_fixed_head {p : Char → Bool} {x : List Char} (t : List Char)
    (hx : x ≠ []) (h : List.dropWhile p x = x) :
    List.dropWhile p (x ++ t) = x ++ t := by
  obtain ⟨c, cs, rfl⟩ : ∃ c cs, x = c :: cs := by
    cases x with
    | nil => exact absurd rfl hx
    | cons c cs => exact ⟨c, cs, rfl⟩
  have hc := dropWhile_fixed_head h
  have hcn : ¬ p c = true := by simp [hc]
  rw [List.cons_append, List.dropWhile_cons_of_neg hcn]

theorem pyStrip_fixed_parts {l : List Char} (h : pyStrip l = l) :
    l.dropWhile pyIsSpace = l ∧ l.reverse.dropWhile pyIsSpace = l.reverse := by
  unfold pyStrip at h
  have h1le := (List.dropWhile_sublist (l := l) pyIsSpace).length_le
  have h2le := (List.dropWhile_sublist (l := (l.dropWhile pyIsSpace).reverse) pyIsSpace).length_le
  have hlen : (((l.dropWhile pyIsSpace).reverse.dropWhile pyIsSpace).reverse).length = l.length := by
    rw [h]
  simp only [List.length_reverse] at hlen h2le
  have hfix1 : l.dropWhile pyIsSpace = l :=
    (List.dropWhile_sublist pyIsSpace).eq_of_length (by omega)
  rw [hfix1] at h
  refine ⟨hfix1, ?_⟩
  have := congrArg List.reverse h
  rwa [List.reverse_reverse] at this

theorem pyStrip_wrap {x : List Char} (hx : x ≠ [])
    (h1 : x.dropWhile pyIsSpace = x) (h2 : x.reverse.dropWhile pyIsSpace = x.reverse) :
    pyStrip ('\n' :: (x ++ ['\n'])) = x := by
  unfold pyStrip
  have hd1 : List.dropWhile pyIsSpace ('\n' :: (x ++ ['\n'])) = x ++ ['\n'] := by
    rw [List.dropWhile_cons_of_pos (by simp [pyIsSpace])]
    exact dropWhile_fixed_of_fixed_head ['\n'] hx h1
  rw [hd1]
  have hrev : (x ++ ['\n']).reverse = '\n' :: x.reverse := by simp
  rw [hrev, List.dropWhile_cons_of_pos (by simp [pyIsSpace])]
  rw [h2, List.reverse_reverse]

theorem joinLines_ne_nil :
    ∀ ls : List (List Char), ls ≠ [] → (∀ l ∈ ls, l ≠ []) → joinLines ls ≠ [] := by
  intro ls
  cases ls with
  | nil => intro h; exact absurd rfl h
  | cons l rest =>
    intro _ hne
    cases rest with
    | nil => exact hne l (by simp)
    | cons l2 rest' =>
      have : joinLines (l :: l2 :: rest') = l ++ '\n' :: joinLines (l2 :: rest') := rfl
      rw [this]
      simp

theorem joinLines_dropWhile_fixed :
    ∀ ls : List (List Char), ls ≠ [] →
      (∀ l ∈ ls, l ≠ [] ∧ l.dropWhile pyIsSpace = l) →
      (joinLines ls).dropWhile pyIsSpace = joinLines ls := by
  intro ls
  cases ls with
  | nil => intro h; exact absurd rfl h
  | cons l rest =>
    intro _ hls
    cases rest with
    | nil => exact (hls l (by simp)).2
    | cons l2 rest' =>
      have hj : joinLines (l :: l2 :: rest') = l ++ '\n' :: joinLines (l2 :: rest') := rfl
      rw [hj]
      exact dropWhile_fixed_of_fixed_head _ (hls l (by simp)).1 (hls l (by simp)).2

theorem joinLines_rev_dropWhile_fixed :
    ∀ ls : List (List Char), ls ≠ [] →
      (∀ l ∈ ls, l ≠ [] ∧ l.reverse.dropWhile pyIsSpace = l.reverse) →
      (joinLines ls).reverse.dropWhile pyIsSpace = (joinLines ls).reverse := by
  intro ls
  induction ls with
  | nil => intro h; exact absurd rfl h
  | cons l rest ih =>
    intro _ hls
    cases rest with
    | nil => exact (hls l (by simp)).2
    | cons l2 rest' =>
      have hj : joinLines (l :: l2 :: rest') = l ++ '\n' :: joinLines (l2 :: rest') := rfl
      rw [hj]
      have hrev : (l ++ '\n' :: joinLines (l2 :: rest')).reverse
          = (joinLines (l2 :: rest')).reverse ++ ('\n' :: l.reverse) := by
        simp
      rw [hrev]
      have hrne : (joinLines (l2 :: rest')).reverse ≠ [] := by
        simp only [ne_eq, List.reverse_eq_nil_iff]
        exact joinLines_ne_nil (l2 :: rest') (by simp)
          (fun x hx => (hls x (List.mem_cons_of_mem l hx)).1)
      exact dropWhile_fixed_of_fixed_head _ hrne
        (ih (by simp) (fun x hx => hls x (List.mem_cons_of_mem l hx)))

/-! ## Claim C1 -/

/-- Claim C1 (amended): the parsing phase fails exactly when the start
sentinel is missing, or when some processed record (line offset
divisible by the group size 4 and below the data block's non-blank line
count) has its position line out of range (which happens exactly when
the line count is ≡ 1 mod 4) or malformed (label missing or value
non-numeric).  In particular it fails on input missing the start
sentinel and on a record with a non-numeric value; but an empty data
block parses successfully to the empty list, and a missing end sentinel
alone does not cause failure (the data block then extends to the end of
the text). -/
theorem C1_parse_failure_characterized :
    (∀ text : List Char, parseCoordsChars text = none ↔ parse_fails_spec text) ∧
    parse_coordinates respMissingSOE = none ∧
    parse_coordinates respNonNumeric = none ∧
    parse_coordinates respEmptyBlock = some [] ∧
    parse_coordinates respMissingEOE = some [(1, 2, 3)] := by
  refine ⟨?_, by decide, by decide, by decide, by decide⟩
  intro text
  unfold parseCoordsChars parse_fails_spec
  cases hg : (pySplit text SOEmark)[1]? with
  | none => simp [hg]
  | some afterS =>
    have hd : dataLines text = extractLines afterS := by
      unfold dataLines
      rw [List.getD_eq_getElem?_getD, hg]
      rfl
    simp only [hg, hd]
    rw [parseLoop_eq_none]
    constructor
    · rintro ⟨i, hmem, hbad⟩
      obtain ⟨h4, hlt⟩ := (mem_loopIdxs _ i).mp hmem
      exact Or.inr ⟨i, h4, hlt, hbad⟩
    · rintro (h | ⟨i, h4, hlt, hbad⟩)
      · exact absurd h (by simp)
      · exact ⟨i, (mem_loopIdxs _ i).mpr ⟨h4, hlt⟩, hbad⟩

/-- Claim C1 counterexample: the claim asserts that `parse_coordinates`
fails with a ParseError on input missing the end sentinel and on an
empty data block; in fact both parses succeed — the empty data block
yields the empty sample list and the response without `$$EOE` yields
its one record. -/
theorem C1_counterexample_success_cases :
    parse_coordinates respEmptyBlock = some [] ∧
    parse_coordinates respMissingEOE = some [(1, 2, 3)] :=
  ⟨by decide, by decide⟩

/-! ## Claim C2 -/

/-- Claim C2 (confirmed): for every well-formed provider response —
header and tail containing no (possibly boundary-crossing) start of a
sentinel occurrence except the delimiting ones, non-blank trimmed
newline-free record lines in groups of 4, each group's position line
parsing successfully — the parsing phase returns exactly one
coordinate sample per record, in file order.  Moreover the fixture
position line `X = 1.5 Y =-2.25 Z = 0.0` parses to `(1.5, -2.25, 0.0)`
(both inside a full response and as a record line with extra
whitespace around labels and values). -/
theorem C2_parse_wellformed :
    (∀ (header footer : List Char) (lines : List (List Char)) (k : ℕ) (vals : ℕ → Coord),
      (∀ i < header.length,
        listStartsWith ((mkResponse header lines footer).drop i) SOEmark = false) →
      (∀ i < (responseTail lines footer).length,
        listStartsWith ((responseTail lines footer).drop i) SOEmark = false) →
      (∀ i < (dataBlock lines).length,
        listStartsWith ((responseTail lines footer).drop i) EOEmark = false) →
      lines ≠ [] →
      (∀ l ∈ lines, l ≠ [] ∧ pyStrip l = l ∧ '\n' ∉ l) →
      lines.length = 4 * k →
      (∀ j < k, (lines[4 * j + 1]?).bind parsePosLine = some (vals j)) →
      parseCoordsChars (mkResponse header lines footer) = some ((List.range k).map vals)) ∧
    parse_coordinates demoResponse = some [(3 / 2, -(9 / 4), 0)] ∧
    parsePosLine "  X =   1.5   Y =  -2.25  Z =  0.0 ".data = some (3 / 2, -(9 / 4), 0) := by
  refine ⟨?_, ?_, ?_⟩
  · intro header footer lines k vals hh1 hh2 hh3 hne hlprops hlen hrec
    have h1 : pySplit (mkResponse header lines footer) SOEmark
        = header :: pySplit (responseTail lines footer) SOEmark := by
      have := pySplitAux_append SOEmark (by decide) header []
        (responseTail lines footer) (mkResponse header lines footer).length le_rfl hh1
      simpa [pySplit, mkResponse] using this
    have h2 : pySplit (responseTail lines footer) SOEmark = [responseTail lines footer] :=
      pySplit_no_occurrence _ _ hh2
    have hidx : (pySplit (mkResponse header lines footer) SOEmark)[1]?
        = some (responseTail lines footer) := by
      rw [h1, h2]; rfl
    have hshape : responseTail lines footer = dataBlock lines ++ EOEmark ++ footer := by
      unfold responseTail dataBlock
      simp
    have h3 : pySplit (responseTail lines footer) EOEmark
        = dataBlock lines :: pySplit footer EOEmark := by
      have := pySplitAux_append EOEmark (by decide) (dataBlock lines) [] footer
        (dataBlock lines ++ EOEmark ++ footer).length le_rfl
        (fun i hi => by have h := hh3 i hi; rwa [hshape] at h)
      rw [hshape, pySplit]
      simpa using this
    have hheadD : (pySplit (responseTail lines footer) EOEmark).headD [] = dataBlock lines := by
      rw [h3]; rfl
    have hjoin_ne := joinLines_ne_nil lines hne (fun l hl => (hlprops l hl).1)
    have hfix1 := joinLines_dropWhile_fixed lines hne
      (fun l hl => ⟨(hlprops l hl).1, (pyStrip_fixed_parts (hlprops l hl).2.1).1⟩)
    have hfix2 := joinLines_rev_dropWhile_fixed lines hne
      (fun l hl => ⟨(hlprops l hl).1, (pyStrip_fixed_parts (hlprops l hl).2.1).2⟩)
    have h4 : pyStrip (dataBlock lines) = joinLines lines :=
      pyStrip_wrap hjoin_ne hfix1 hfix2
    have h5 : pySplit (joinLines lines) ['\n'] = lines :=
      pySplit_joinLines lines hne (fun l hl => (hlprops l hl).2.2)
    have h6 : lines.map pyStrip = lines :=
      (List.map_congr_left (fun l hl => (hlprops l hl).2.1)).trans (List.map_id lines)
    have h7 : lines.filter (fun l => !l.isEmpty) = lines := by
      rw [List.filter_eq_self]
      intro a ha
      simpa using (hlprops a ha).1
    have hextract : extractLines (responseTail lines footer) = lines := by
      show ((pySplit (pyStrip ((pySplit (responseTail lines footer) EOEmark).headD []))
        ['\n']).map pyStrip).filter (fun l => !l.isEmpty) = lines
      rw [hheadD, h4, h5, h6, h7]
    have hloop : loopIdxs (4 * k) = List.range' 0 k 4 := by
      unfold loopIdxs
      congr 1
      omega
    have hpl := parseLoop_ok lines (fun i => vals (i / 4)) (List.range' 0 k 4) (by
      intro i hi
      obtain ⟨t, ht, rfl⟩ := List.mem_range'.mp hi
      simpa [Nat.mul_div_cancel_left] using hrec t ht)
    unfold parseCoordsChars
    rw [hidx]
    simp only [hextract, hlen, hloop]
    rw [hpl, range'_map_val]
    refine congrArg _ (List.map_congr_left (fun j _ => congrArg vals (by omega)))
  · have h : parse_coordinates demoResponse = some [demoSample] := by decide
    rw [h]
    unfold demoSample
    simp [Rat.divInt_eq_div, neg_div]
  · have h : parsePosLine "  X =   1.5   Y =  -2.25  Z =  0.0 ".data
        = some (Rat.divInt 3 2, Rat.divInt (-9) 4, 0) := by decide
    rw [h]
    simp [Rat.divInt_eq_div, neg_div]

/-- Claim C2 witness: a concrete well-formed response with one record
satisfies the hypotheses, and its parse yields that record's sample. -/
theorem C2_parse_wellformed_witness :
    parseCoordsChars (mkResponse "Ephemeris API ".data demoLines " tail".data)
      = some ((List.range 1).map (fun _ => demoSample)) :=
  C2_parse_wellformed.1 "Ephemeris API ".data " tail".data demoLines 1 (fun _ => demoSample)
    (by decide) (by decide) (by decide) (by decide) (by decide) (by decide) (by decide)

/-! ## Lemmas about the scene assembler -/

theorem callsSpec_all (cid : String) (k : ℤ) :
    ∀ (bs : List Body) (i : ℤ), k < i →
      callsSpec cid k bs i = bs.map (fun b => defaultRequest b.id cid) := by
  intro bs
  induction bs with
  | nil => intro i _; rfl
  | cons b rest ih =>
    intro i hki
    rw [callsSpec, if_pos (by omega)]
    rw [ih (i + 1) (by omega)]
    rfl

theorem callsSpec_erase (cid : String) :
    ∀ (bs : List Body) (j : ℕ) (i : ℤ),
      callsSpec cid (i + j) bs i = (bs.eraseIdx j).map (fun b => defaultRequest b.id cid) := by
  intro bs
  induction bs with
  | nil => intro j i; simp [callsSpec]
  | cons b rest ih =>
    intro j i
    cases j with
    | zero =>
      simp only [Nat.cast_zero, add_zero]
      rw [callsSpec, if_neg (by omega)]
      rw [callsSpec_all cid i rest (i + 1) (by omega)]
      rfl
    | succ j =>
      rw [callsSpec, if_pos (by push_cast; omega)]
      have harith : i + ((j + 1 : ℕ) : ℤ) = (i + 1) + (j : ℤ) := by push_cast; ring
      rw [harith, ih j (i + 1)]
      rfl

theorem pyGet_nonneg {α : Type} (l : List α) (j : ℕ) : pyGet l (j : ℤ) = l[j]? := by
  unfold pyGet
  rw [if_neg (by omega), if_neg (by omega)]
  simp

theorem pyGet_neg {α : Type} (l : List α) (i : ℤ)
    (h2 : i < 0) : pyGet l i = if (l.length : ℤ) + i < 0 then none
      else l[((l.length : ℤ) + i).toNat]? := by
  unfold pyGet
  rw [if_pos h2]

/-- Full characterization of a successful pass of the `visualize_orbits`
per-body loop: one trace per body, the issued requests are exactly the
non-reference-position fetches, and each position carries either the
origin marker (when the raw position equals the raw center index) or a
fetched, non-empty line trace with that body's name and color. -/
theorem vizLoop_ok (respond : HorizonsRequest → String) (cid cname ccolor : String) (k : ℤ) :
    ∀ (bs : List Body) (i : ℤ) (calls : List HorizonsRequest) (ts : List Trace),
      vizLoop respond cid cname ccolor k bs i = (calls, .ok ts) →
      ts.length = bs.length ∧
      calls = callsSpec cid k bs i ∧
      ∀ j : ℕ, j < bs.length →
        (((i + j : ℤ) = k ∧ ts[j]? = some ⟨cname, ccolor, true, [origin]⟩) ∨
         ((i + j : ℤ) ≠ k ∧ ∃ b coords, bs[j]? = some b ∧ coords ≠ [] ∧
            ts[j]? = some ⟨b.name, b.color, false, coords⟩)) := by
  intro bs
  induction bs with
  | nil =>
    intro i calls ts h
    simp only [vizLoop] at h
    injection h with hc hres
    injection hres with hts
    subst hc
    subst hts
    exact ⟨rfl, rfl, fun j hj => absurd hj (by simp)⟩
  | cons b rest ih =>
    intro i calls ts h
    simp only [vizLoop, get_planet_coords] at h
    by_cases hik : i ≠ k
    · rw [if_pos hik] at h
      cases hp : parse_coordinates
          (respond (buildRequest b.id cid defaultStart defaultStop defaultStep)) with
      | none => simp only [hp] at h; injection h with _ hres; simp at hres
      | some coords =>
        simp only [hp] at h
        by_cases hemp : coords.isEmpty = true
        · rw [if_pos hemp] at h
          injection h with _ hres
          simp at hres
        · rw [if_neg hemp] at h
          injection h with hc hres
          cases hnext : (vizLoop respond cid cname ccolor k rest (i + 1)).2 with
          | error e => rw [hnext] at hres; simp [Except.map] at hres
          | ok ts' =>
            rw [hnext] at hres
            simp only [Except.map] at hres
            injection hres with hts
            have hpair : vizLoop respond cid cname ccolor k rest (i + 1)
                = ((vizLoop respond cid cname ccolor k rest (i + 1)).1, .ok ts') := by
              rw [← hnext]
            obtain ⟨ihl, ihc, ihj⟩ := ih (i + 1) _ ts' hpair
            subst hts
            subst hc
            refine ⟨by simp [ihl], ?_, ?_⟩
            · rw [callsSpec, if_pos hik, ← ihc]
              rfl
            · intro j hj
              cases j with
              | zero =>
                right
                refine ⟨by simpa using hik, b, coords, by simp, ?_, by simp⟩
                intro hco
                exact hemp (by simp [hco])
              | succ j =>
                have hj' : j < rest.length := by simpa using hj
                have harith : i + ((j + 1 : ℕ) : ℤ) = (i + 1) + (j : ℤ) := by push_cast; ring
                rcases ihj j hj' with ⟨hek, hts'⟩ | ⟨hek, bb, cc, hb, hcc, hts'⟩
                · exact Or.inl ⟨by rw [harith]; exact hek, by simpa using hts'⟩
                · exact Or.inr ⟨by rw [harith]; exact hek, bb, cc, by simpa using hb,
                    hcc, by simpa using hts'⟩
    · rw [if_neg hik] at h
      have hik' : i = k := not_not.mp hik
      injection h with hc hres
      cases hnext : (vizLoop respond cid cname ccolor k rest (i + 1)).2 with
      | error e => rw [hnext] at hres; simp [Except.map] at hres
      | ok ts' =>
        rw [hnext] at hres
        simp only [Except.map] at hres
        injection hres with hts
        have hpair : vizLoop respond cid cname ccolor k rest (i + 1)
            = ((vizLoop respond cid cname ccolor k rest (i + 1)).1, .ok ts') := by
          rw [← hnext]
        obtain ⟨ihl, ihc, ihj⟩ := ih (i + 1) _ ts' hpair
        subst hts
        subst hc
        refine ⟨by simp [ihl], ?_, ?_⟩
        · rw [callsSpec, if_neg hik, ihc]
        · intro j hj
          cases j with
          | zero => exact Or.inl ⟨by simpa using hik', by simp⟩
          | succ j =>
            have hj' : j < rest.length := by simpa using hj
            have harith : i + ((j + 1 : ℕ) : ℤ) = (i + 1) + (j : ℤ) := by push_cast; ring
            rcases ihj j hj' with ⟨hek, hts'⟩ | ⟨hek, bb, cc, hb, hcc, hts'⟩
            · exact Or.inl ⟨by rw [harith]; exact hek, by simpa using hts'⟩
            · exact Or.inr ⟨by rw [harith]; exact hek, bb, cc, by simpa using hb,
                hcc, by simpa using hts'⟩

theorem pyGet_nil {α : Type} (i : ℤ) : pyGet ([] : List α) i = none := by
  unfold pyGet
  split <;> simp

theorem viz_index_error (respond : HorizonsRequest → String) (cfg : List Body) (ci : ℤ)
    (h : pyGet cfg ci = none) :
    visualize_orbits respond cfg ci = ([], .error .indexError) := by
  unfold visualize_orbits
  simp only [h]

theorem resolveCenters_none (cfg : List Body) :
    ∀ cidxs : List ℤ, (∃ ci ∈ cidxs, pyGet cfg ci = none) →
      resolveCenters cfg cidxs = none := by
  intro cidxs
  induction cidxs with
  | nil => rintro ⟨ci, hmem, _⟩; simp at hmem
  | cons c rest ih =>
    rintro ⟨ci, hmem, hci⟩
    rw [resolveCenters]
    rcases List.mem_cons.mp hmem with rfl | hmem'
    · simp only [hci]
    · cases hc : pyGet cfg c with
      | none => simp
      | some b => simp only [ih ⟨ci, hmem', hci⟩, Option.map_none']

theorem multi_index_error (respond : HorizonsRequest → String) (cfg : List Body)
    (cidxs : List ℤ) (h : resolveCenters cfg cidxs = none) :
    create_multi_center_visualization respond cfg cidxs = ([], .error .indexError) := by
  unfold create_multi_center_visualization
  simp only [h]

/-! ## Claim C3 -/

/-- Claim C3 (amended): an out-of-range reference index or an empty
body list makes both builders fail with an index error eagerly, before
any request is issued (the returned request list is empty); but time
windows are never validated — the builders use the fixed default window
and `get_planet_coords` assembles and issues its one request for any
window, inverted windows included. -/
theorem C3_eager_validation :
    (∀ (respond : HorizonsRequest → String) (cfg : List Body) (ci : ℤ),
      pyGet cfg ci = none →
      visualize_orbits respond cfg ci = ([], .error .indexError)) ∧
    (∀ (respond : HorizonsRequest → String) (ci : ℤ),
      visualize_orbits respond ([] : List Body) ci = ([], .error .indexError)) ∧
    (∀ (respond : HorizonsRequest → String) (cfg : List Body) (cidxs : List ℤ) (ci : ℤ),
      ci ∈ cidxs → pyGet cfg ci = none →
      create_multi_center_visualization respond cfg cidxs = ([], .error .indexError)) ∧
    (∀ (respond : HorizonsRequest → String) (cidxs : List ℤ),
      create_multi_center_visualization respond ([] : List Body) cidxs
        = ([], .error .indexError)) ∧
    (∀ (respond : HorizonsRequest → String) (target center start stop step : String),
      get_planet_coords respond target center start stop step
        = (buildRequest target center start stop step,
           parse_coordinates (respond (buildRequest target center start stop step)))) := by
  refine ⟨?_, ?_, ?_, ?_, ?_⟩
  · exact viz_index_error
  · intro respond ci
    exact viz_index_error respond [] ci (pyGet_nil ci)
  · intro respond cfg cidxs ci hmem hci
    exact multi_index_error respond cfg cidxs (resolveCenters_none cfg cidxs ⟨ci, hmem, hci⟩)
  · intro respond cidxs
    cases cidxs with
    | nil => rfl
    | cons c rest =>
      exact multi_index_error respond [] (c :: rest)
        (resolveCenters_none [] (c :: rest) ⟨c, by simp, pyGet_nil c⟩)
  · intro respond target center start stop step
    rfl

/-- Claim C3 witness: concrete out-of-range index and concrete
empty-list call, both failing with no request issued. -/
theorem C3_eager_validation_witness :
    visualize_orbits demoRespond demoCfg 5 = ([], .error .indexError) ∧
    create_multi_center_visualization demoRespond demoCfg [0, 5]
      = ([], .error .indexError) :=
  ⟨C3_eager_validation.1 demoRespond demoCfg 5 (by decide),
   C3_eager_validation.2.2.1 demoRespond demoCfg [0, 5] 5 (by decide) (by decide)⟩

/-- Claim C3 counterexample: the claim says a call with an inverted
time window fails with a ConfigurationError before any network call; in
fact nothing validates the window — with start after stop,
`get_planet_coords` still builds and issues its request and proceeds to
parse the response normally. -/
theorem C3_counterexample_inverted_window_fetches :
    (get_planet_coords demoRespond "399" "10" "2083-10-15" "1999-10-15" "1d").1
      = buildRequest "399" "10" "2083-10-15" "1999-10-15" "1d" ∧
    (buildRequest "399" "10" "2083-10-15" "1999-10-15" "1d").START_TIME = "2083-10-15" ∧
    (buildRequest "399" "10" "2083-10-15" "1999-10-15" "1d").STOP_TIME = "1999-10-15" ∧
    (get_planet_coords demoRespond "399" "10" "2083-10-15" "1999-10-15" "1d").2
      = some [demoSample] :=
  ⟨rfl, rfl, rfl, by decide⟩

/-! ## Claim C4 -/

/-- Claim C4 (confirmed): when `visualize_orbits` succeeds on a body
list with an in-range (non-negative) reference index, it returns
exactly one trace per input body, and the trace at the reference index
is the degenerate single-sample origin marker `(0, 0, 0)` carrying the
reference body's name and color. -/
theorem C4_trace_count_and_origin (respond : HorizonsRequest → String)
    (cfg : List Body) (k : ℕ) (ts : List Trace)
    (hk : k < cfg.length)
    (hok : (visualize_orbits respond cfg (k : ℤ)).2 = .ok ts) :
    ts.length = cfg.length ∧
    ∃ b, cfg[k]? = some b ∧ ts[k]? = some ⟨b.name, b.color, true, [origin]⟩ := by
  unfold visualize_orbits at hok
  have hp : pyGet cfg (k : ℤ) = cfg[k]? := pyGet_nonneg cfg k
  obtain ⟨b, hb⟩ : ∃ b, cfg[k]? = some b := ⟨cfg[k], List.getElem?_eq_getElem hk⟩
  rw [hp, hb] at hok
  simp only [] at hok
  have hpair : vizLoop respond b.id b.name b.color (k : ℤ) cfg 0
      = ((vizLoop respond b.id b.name b.color (k : ℤ) cfg 0).1, .ok ts) := by
    rw [← hok]
  obtain ⟨hlen, _, hj⟩ := vizLoop_ok respond b.id b.name b.color (k : ℤ) cfg 0 _ ts hpair
  refine ⟨hlen, b, hb, ?_⟩
  rcases hj k hk with ⟨_, hts⟩ | ⟨hne, _⟩
  · exact hts
  · exact absurd (by omega) hne

/-- Claim C4 witness: the concrete scenario (three bodies, reference
index 1) has one trace per body and the origin marker at index 1. -/
theorem C4_trace_count_and_origin_witness :
    demoTraces.length = demoCfg.length ∧
    ∃ b, demoCfg[1]? = some b ∧ demoTraces[1]? = some ⟨b.name, b.color, true, [origin]⟩ :=
  C4_trace_count_and_origin demoRespond demoCfg 1 demoTraces (by decide) (by decide)

/-! ## Claim C5 -/

/-- Claim C5 (confirmed): on success the traces of `visualize_orbits`
are in input body order — the j-th trace carries the j-th body's name
and color (at the reference position this is the reference body's
origin marker). -/
theorem C5_trace_order (respond : HorizonsRequest → String)
    (cfg : List Body) (ci : ℤ) (ts : List Trace)
    (hok : (visualize_orbits respond cfg ci).2 = .ok ts) :
    ts.length = cfg.length ∧
    ∀ (j : ℕ) (b : Body), cfg[j]? = some b →
      ∃ t : Trace, ts[j]? = some t ∧ t.name = b.name ∧ t.color = b.color := by
  unfold visualize_orbits at hok
  cases hcb : pyGet cfg ci with
  | none => simp only [hcb] at hok; simp at hok
  | some cb =>
    simp only [hcb] at hok
    have hpair : vizLoop respond cb.id cb.name cb.color ci cfg 0
        = ((vizLoop respond cb.id cb.name cb.color ci cfg 0).1, .ok ts) := by
      rw [← hok]
    obtain ⟨hlen, _, hj⟩ := vizLoop_ok respond cb.id cb.name cb.color ci cfg 0 _ ts hpair
    refine ⟨hlen, ?_⟩
    intro j b hb
    have hjlen : j < cfg.length := by
      by_contra hge
      push_neg at hge
      rw [List.getElem?_eq_none hge] at hb
      exact absurd hb (by simp)
    rcases hj j hjlen with ⟨hek, hts⟩ | ⟨_, bb, cc, hbb, _, hts⟩
    · have hci : ci = (j : ℤ) := by omega
      have hcbj : cfg[j]? = some cb := by
        rw [← pyGet_nonneg cfg j, ← hci, hcb]
      have hbcb : cb = b := by
        rw [hcbj] at hb
        injection hb
      refine ⟨_, hts, ?_, ?_⟩ <;> rw [hbcb]
    · have hbbb : bb = b := by
        rw [hbb] at hb
        injection hb
      exact ⟨_, hts, by rw [hbbb], by rw [hbbb]⟩

/-- Claim C5 witness: the spec's end-to-end scenario — bodies Sun,
Earth, Mars with reference index 1 — yields traces in exactly that
order (Sun line trace, Earth origin marker, Mars line trace). -/
theorem C5_trace_order_witness :
    (visualize_orbits demoRespond demoCfg 1).2 = .ok demoTraces ∧
    demoTraces.map Trace.name = ["Sun", "Earth", "Mars"] ∧
    demoTraces.length = demoCfg.length ∧
    (∀ (j : ℕ) (b : Body), demoCfg[j]? = some b →
      ∃ t : Trace, demoTraces[j]? = some t ∧ t.name = b.name ∧ t.color = b.color) :=
  ⟨by decide, by decide,
   (C5_trace_order demoRespond demoCfg 1 demoTraces (by decide)).1,
   (C5_trace_order demoRespond demoCfg 1 demoTraces (by decide)).2⟩

/-! ## Claim C7 -/

/-- Claim C7 (confirmed): `visualize_orbits` is deterministic — two
runs with identical body list and reference index against oracles that
return the same fixed response for every request produce identical
issued requests and identical ordered traces. -/
theorem C7_deterministic (r1 r2 : HorizonsRequest → String)
    (cfg : List Body) (ci : ℤ) (hr : ∀ q : HorizonsRequest, r1 q = r2 q) :
    visualize_orbits r1 cfg ci = visualize_orbits r2 cfg ci := by
  have h : r1 = r2 := funext hr
  rw [h]

/-- Claim C7 witness: two syntactically distinct but pointwise equal
fixture oracles give identical results. -/
theorem C7_deterministic_witness :
    visualize_orbits demoRespond demoCfg 1
      = visualize_orbits (fun _ => demoResponse) demoCfg 1 :=
  C7_deterministic demoRespond (fun _ => demoResponse) demoCfg 1 (fun _ => rfl)

/-! ## Claim C8 -/

/-- Claim C8 (confirmed): for every target, center and time window,
`get_planet_coords` builds its request with exactly the parameters that
determine the output format — JSON envelope, ephemeris generation
enabled, vector ephemeris, AU-day units — together with the given
target id, center id, start date, stop date and step size. -/
theorem C8_request_parameters (respond : HorizonsRequest → String)
    (target center start stop step : String) :
    (get_planet_coords respond target center start stop step).1.format = "json" ∧
    (get_planet_coords respond target center start stop step).1.COMMAND = target ∧
    (get_planet_coords respond target center start stop step).1.CENTER = center ∧
    (get_planet_coords respond target center start stop step).1.MAKE_EPHEM = "YES" ∧
    (get_planet_coords respond target center start stop step).1.EPHEM_TYPE = "VECTORS" ∧
    (get_planet_coords respond target center start stop step).1.OUT_UNITS = "AU-D" ∧
    (get_planet_coords respond target center start stop step).1.START_TIME = start ∧
    (get_planet_coords respond target center start stop step).1.STOP_TIME = stop ∧
    (get_planet_coords respond target center start stop step).1.STEP_SIZE = step :=
  ⟨rfl, rfl, rfl, rfl, rfl, rfl, rfl, rfl, rfl⟩

/-! ## Claim C10 -/

/-- Claim C10 (confirmed): for a non-empty body list and a negative
in-range center index, `visualize_orbits` raises no index error —
Python resolves `planets_config[center_index]` to position
`len + center_index` — but since the loop compares each non-negative
position against the negative raw index, on success every body (the
reference body included, relative to itself) yields a fetched line
trace and the single origin-marker trace is never emitted. -/
theorem C10_negative_index (respond : HorizonsRequest → String)
    (cfg : List Body) (ci : ℤ)
    (h1 : -(cfg.length : ℤ) ≤ ci) (h2 : ci < 0) :
    (∃ b, pyGet cfg ci = some b ∧ cfg[((cfg.length : ℤ) + ci).toNat]? = some b) ∧
    (∀ (calls : List HorizonsRequest) (ts : List Trace),
      visualize_orbits respond cfg ci = (calls, .ok ts) →
      ts.length = cfg.length ∧
      (∀ t ∈ ts, t.isMarker = false) ∧
      (∃ b, pyGet cfg ci = some b ∧
        calls = cfg.map (fun bd => defaultRequest bd.id b.id))) := by
  have hres : pyGet cfg ci = cfg[((cfg.length : ℤ) + ci).toNat]? := by
    rw [pyGet_neg cfg ci h2, if_neg (by omega)]
  have hlt : ((cfg.length : ℤ) + ci).toNat < cfg.length := by omega
  obtain ⟨b, hb⟩ : ∃ b, cfg[((cfg.length : ℤ) + ci).toNat]? = some b :=
    ⟨_, List.getElem?_eq_getElem hlt⟩
  have hget : pyGet cfg ci = some b := by rw [hres, hb]
  refine ⟨⟨b, hget, hb⟩, ?_⟩
  intro calls ts h
  unfold visualize_orbits at h
  simp only [hget] at h
  obtain ⟨hlen, hcalls, hj⟩ := vizLoop_ok respond b.id b.name b.color ci cfg 0 calls ts h
  refine ⟨hlen, ?_, b, hget, ?_⟩
  · intro t ht
    obtain ⟨j, hjt⟩ := List.mem_iff_getElem?.mp ht
    have hjlen : j < cfg.length := by
      by_contra hge
      push_neg at hge
      rw [List.getElem?_eq_none (by omega : ts.length ≤ j)] at hjt
      exact absurd hjt (by simp)
    rcases hj j hjlen with ⟨hek, _⟩ | ⟨_, bb, cc, _, _, hts⟩
    · exact absurd hek (by omega)
    · rw [hts] at hjt
      injection hjt with hjt'
      rw [← hjt']
  · rw [hcalls]
    exact callsSpec_all b.id ci cfg 0 (by omega)

/-- Claim C10 witness: the concrete scenario with center index `-1`
resolves to Mars, fetches all three bodies relative to Mars (Mars
itself included) and emits no origin marker. -/
theorem C10_negative_index_witness :
    (-(demoCfg.length : ℤ) ≤ -1) ∧ ((-1 : ℤ) < 0) ∧
    ((∃ b, pyGet demoCfg (-1) = some b ∧
        demoCfg[((demoCfg.length : ℤ) + -1).toNat]? = some b) ∧
     (∀ (calls : List HorizonsRequest) (ts : List Trace),
        visualize_orbits demoRespond demoCfg (-1) = (calls, .ok ts) →
        ts.length = demoCfg.length ∧
        (∀ t ∈ ts, t.isMarker = false) ∧
        (∃ b, pyGet demoCfg (-1) = some b ∧
          calls = demoCfg.map (fun bd => defaultRequest bd.id b.id)))) :=
  ⟨by decide, by decide,
   C10_negative_index demoRespond demoCfg (-1) (by decide) (by decide)⟩

/-! ## Lemmas about the multi-view builder -/

/-- Full characterization of a successful pass of one view's per-body
loop: one trace per body, the trace-group indices are the consecutive
positions starting at the running figure size, and the issued requests
are the non-reference-position fetches. -/
theorem viewLoop_ok (respond : HorizonsRequest → String) (cid cname ccolor : String) (k : ℤ) :
    ∀ (bs : List Body) (i : ℤ) (cnt : ℕ) (calls : List HorizonsRequest)
      (ts : List Trace) (grp : List ℕ),
      viewLoop respond cid cname ccolor k bs i cnt = (calls, .ok (ts, grp)) →
      ts.length = bs.length ∧ grp = List.range' cnt bs.length ∧ calls = callsSpec cid k bs i := by
  intro bs
  induction bs with
  | nil =>
    intro i cnt calls ts grp h
    simp only [viewLoop] at h
    injection h with hc hres
    injection hres with hok
    injection hok with ht hg
    subst hc
    subst ht
    subst hg
    exact ⟨rfl, rfl, rfl⟩
  | cons b rest ih =>
    intro i cnt calls ts grp h
    simp only [viewLoop, get_planet_coords] at h
    by_cases hik : i ≠ k
    · rw [if_pos hik] at h
      cases hp : parse_coordinates
          (respond (buildRequest b.id cid defaultStart defaultStop defaultStep)) with
      | none => simp only [hp] at h; injection h with _ hres; simp at hres
      | some coords =>
        simp only [hp] at h
        by_cases hemp : coords.isEmpty = true
        · rw [if_pos hemp] at h
          injection h with _ hres
          simp at hres
        · rw [if_neg hemp] at h
          injection h with hc hres
          cases hnext : (viewLoop respond cid cname ccolor k rest (i + 1) (cnt + 1)).2 with
          | error e => rw [hnext] at hres; simp [Except.map] at hres
          | ok q =>
            obtain ⟨ts', grp'⟩ := q
            rw [hnext] at hres
            simp only [Except.map] at hres
            injection hres with hok
            injection hok with ht hg
            have hpair : viewLoop respond cid cname ccolor k rest (i + 1) (cnt + 1)
                = ((viewLoop respond cid cname ccolor k rest (i + 1) (cnt + 1)).1,
                   .ok (ts', grp')) := by
              rw [← hnext]
            obtain ⟨ihl, ihg, ihc⟩ := ih (i + 1) (cnt + 1) _ ts' grp' hpair
            subst hc
            subst ht
            subst hg
            refine ⟨by simp [ihl], ?_, ?_⟩
            · rw [List.length_cons, List.range'_succ, ihg]
            · rw [callsSpec, if_pos hik, ihc]
              rfl
    · rw [if_neg hik] at h
      injection h with hc hres
      cases hnext : (viewLoop respond cid cname ccolor k rest (i + 1) (cnt + 1)).2 with
      | error e => rw [hnext] at hres; simp [Except.map] at hres
      | ok q =>
        obtain ⟨ts', grp'⟩ := q
        rw [hnext] at hres
        simp only [Except.map] at hres
        injection hres with hok
        injection hok with ht hg
        have hpair : viewLoop respond cid cname ccolor k rest (i + 1) (cnt + 1)
            = ((viewLoop respond cid cname ccolor k rest (i + 1) (cnt + 1)).1,
               .ok (ts', grp')) := by
          rw [← hnext]
        obtain ⟨ihl, ihg, ihc⟩ := ih (i + 1) (cnt + 1) _ ts' grp' hpair
        subst hc
        subst ht
        subst hg
        refine ⟨by simp [ihl], ?_, ?_⟩
        · rw [List.length_cons, List.range'_succ, ihg]
        · rw [callsSpec, if_neg hik, ihc]

/-- Full characterization of a successful multi-view pass: the flat
trace list has one trace per body per view, the trace groups are the
consecutive blocks of each view, every requested index resolves, and
(for non-negative indices) the issued requests are, view by view, one
default-window fetch per non-reference body with that view's center. -/
theorem multiViewLoop_ok (respond : HorizonsRequest → String) (cfg : List Body) :
    ∀ (cidxs : List ℤ) (offset : ℕ) (calls : List HorizonsRequest)
      (traces : List Trace) (groups : List (List ℕ)),
      multiViewLoop respond cfg cidxs offset = (calls, .ok (traces, groups)) →
      traces.length = cidxs.length * cfg.length ∧
      groups = (List.range cidxs.length).map
        (fun v => List.range' (offset + v * cfg.length) cfg.length) ∧
      (∀ ci ∈ cidxs, ∃ b, pyGet cfg ci = some b) ∧
      ((∀ ci ∈ cidxs, 0 ≤ ci) →
        calls = cidxs.flatMap (fun ci => (cfg.eraseIdx ci.toNat).map
          (fun b => defaultRequest b.id ((cfg.getD ci.toNat ⟨"", "", ""⟩).id)))) := by
  intro cidxs
  induction cidxs with
  | nil =>
    intro offset calls traces groups h
    simp only [multiViewLoop] at h
    injection h with hc hres
    injection hres with hok
    injection hok with ht hg
    subst hc
    subst ht
    subst hg
    exact ⟨by simp, by simp, by simp, fun _ => by simp⟩
  | cons ci rest ih =>
    intro offset calls traces groups h
    simp only [multiViewLoop] at h
    cases hcb : pyGet cfg ci with
    | none => simp only [hcb] at h; injection h with _ hres; simp at hres
    | some cb =>
      simp only [hcb] at h
      rcases hv : viewLoop respond cb.id cb.name cb.color ci cfg 0 offset with ⟨vcalls, vres⟩
      rw [hv] at h
      cases vres with
      | error e => injection h with _ hres; simp at hres
      | ok p =>
        obtain ⟨ts, grp⟩ := p
        obtain ⟨vlen, vgrp, vcallsEq⟩ :=
          viewLoop_ok respond cb.id cb.name cb.color ci cfg 0 offset vcalls ts grp hv
        injection h with hc hres
        cases hnext : (multiViewLoop respond cfg rest (offset + ts.length)).2 with
        | error e => rw [hnext] at hres; simp [Except.map] at hres
        | ok q =>
          obtain ⟨traces', groups'⟩ := q
          rw [hnext] at hres
          simp only [Except.map] at hres
          injection hres with hok
          injection hok with ht hg
          have hpair : multiViewLoop respond cfg rest (offset + ts.length)
              = ((multiViewLoop respond cfg rest (offset + ts.length)).1,
                 .ok (traces', groups')) := by
            rw [← hnext]
          obtain ⟨ihlen, ihgr, ihex, ihcalls⟩ := ih (offset + ts.length) _ traces' groups' hpair
          subst hc
          subst ht
          subst hg
          refine ⟨?_, ?_, ?_, ?_⟩
          · simp only [List.length_append, ihlen, vlen, List.length_cons]
            ring
          · rw [show (ci :: rest).length = rest.length + 1 from rfl, List.range_succ_eq_map]
            simp only [List.map_cons, List.map_map]
            refine congrArg₂ _ ?_ ?_
            · rw [vgrp]
              simp
            · rw [ihgr, vlen]
              refine List.map_congr_left (fun v _ => ?_)
              simp only [Function.comp_apply]
              have harith : offset + cfg.length + v * cfg.length
                  = offset + (v + 1) * cfg.length := by ring
              rw [harith]
          · intro c hc'
            rcases List.mem_cons.mp hc' with rfl | hmem
            · exact ⟨cb, hcb⟩
            · exact ihex c hmem
          · intro hnn
            rw [List.flatMap_cons]
            rw [← ihcalls (fun c hc' => hnn c (List.mem_cons_of_mem ci hc'))]
            refine congrArg₂ _ ?_ rfl
            have hci0 : (0 : ℤ) ≤ ci := hnn ci (by simp)
            have hgd : cfg.getD ci.toNat ⟨"", "", ""⟩ = cb := by
              have hp : pyGet cfg ci = cfg[ci.toNat]? := by
                rw [show ci = ((ci.toNat : ℕ) : ℤ) from by omega]
                rw [pyGet_nonneg cfg ci.toNat]
                rw [Int.toNat_natCast]
              rw [List.getD_eq_getElem?_getD, ← hp, hcb]
              rfl
            rw [vcallsEq, hgd]
            have herase := callsSpec_erase cb.id cfg ci.toNat 0
            rw [show (0 : ℤ) + (ci.toNat : ℤ) = ci from by omega] at herase
            exact herase

/-- Setting `True` at a list of positions: the written mask reads
`true` exactly at the in-range positions of the written set, and reads
the base elsewhere. -/
theorem foldl_set_getElem (grp : List ℕ) :
    ∀ (l : List Bool) (p : ℕ),
      (grp.foldl (fun m idx => m.set idx true) l)[p]? =
        if p ∈ grp ∧ p < l.length then some true else l[p]? := by
  induction grp with
  | nil => intro l p; simp
  | cons g grp' ih =>
    intro l p
    rw [List.foldl_cons, ih (l.set g true) p, List.length_set, List.getElem?_set]
    by_cases hlt : p < l.length
    · by_cases hmem : p ∈ grp'
      · simp [hmem, hlt, List.mem_cons]
      · by_cases hgp : g = p
        · subst hgp
          simp [hmem, hlt, List.mem_cons]
        · have hpg : p ≠ g := Ne.symm hgp
          simp [hmem, hlt, hgp, hpg, List.mem_cons]
    · have hnone : l[p]? = none := List.getElem?_eq_none (by omega)
      by_cases hgp : g = p
      · subst hgp
        simp [hlt, hnone]
      · simp [hlt, hgp, hnone]

theorem foldl_set_length (grp : List ℕ) :
    ∀ l : List Bool, (grp.foldl (fun m idx => m.set idx true) l).length = l.length := by
  induction grp with
  | nil => intro l; rfl
  | cons g grp' ih => intro l; rw [List.foldl_cons, ih (l.set g true), List.length_set]

theorem buildMask_length (total : ℕ) (grp : List ℕ) : (buildMask total grp).length = total := by
  rw [buildMask, foldl_set_length, List.length_replicate]

theorem buildMask_getElem (total : ℕ) (grp : List ℕ) (p : ℕ) (hp : p < total) :
    (buildMask total grp)[p]? = some (decide (p ∈ grp)) := by
  rw [buildMask, foldl_set_getElem, List.length_replicate, List.getElem?_replicate]
  by_cases hmem : p ∈ grp <;> simp [hmem, hp]

/-- A mask built from a consecutive block is the corresponding
false/true/false concatenation. -/
theorem buildMask_range' (total s n : ℕ) (h : s + n ≤ total) :
    buildMask total (List.range' s n)
      = List.replicate s false ++ List.replicate n true
          ++ List.replicate (total - s - n) false := by
  have hlen : (List.replicate s false ++ List.replicate n true
      ++ List.replicate (total - s - n) false).length = total := by
    simp
    omega
  refine List.ext_getElem? (fun p => ?_)
  by_cases hp : p < total
  · rw [buildMask_getElem total _ p hp]
    rw [List.getElem?_append, List.getElem?_append]
    rw [List.getElem?_replicate, List.getElem?_replicate, List.getElem?_replicate]
    simp only [List.length_replicate]
    by_cases h1 : p < s
    · have hm : p ∉ List.range' s n := by rw [List.mem_range'_1]; omega
      simp [h1, hm]
      rw [if_pos (show p < s + n by omega)]
    · by_cases h2 : p < s + n
      · have hm : p ∈ List.range' s n := List.mem_range'_1.mpr (by omega)
        have h3 : p - s < n := by omega
        simp [h1, h3, hm]
        rw [if_pos (show p < s + n by omega)]
      · have hm : p ∉ List.range' s n := by rw [List.mem_range'_1]; omega
        have h3 : ¬ p - s < n := by omega
        have h4 : p - s - n < total - s - n := by omega
        simp [h1, h3, h4, hm]
        exact ⟨by omega, by omega⟩
  · rw [List.getElem?_eq_none (by rw [buildMask_length]; omega),
      List.getElem?_eq_none (by rw [hlen]; omega)]

theorem buildMask_count (total s n : ℕ) (h : s + n ≤ total) :
    (buildMask total (List.range' s n)).count true = n := by
  rw [buildMask_range' total s n h, List.count_append, List.count_append,
    List.count_replicate, List.count_replicate, List.count_replicate]
  simp

theorem buildMask_true_iff (total s n p : ℕ) (hp : p < total) :
    ((buildMask total (List.range' s n))[p]? = some true ↔ (s ≤ p ∧ p < s + n)) := by
  rw [buildMask_getElem total _ p hp]
  simp [List.mem_range'_1]

theorem flatMap_length_const {α β : Type} (c : ℕ) :
    ∀ (l : List α) (f : α → List β), (∀ a ∈ l, (f a).length = c) →
      (l.flatMap f).length = l.length * c := by
  intro l
  induction l with
  | nil => intro f _; simp
  | cons a rest ih =>
    intro f h
    rw [List.flatMap_cons, List.length_append, h a (by simp),
      ih f (fun x hx => h x (List.mem_cons_of_mem a hx)), List.length_cons]
    ring

/-! ## Claim C6 -/

/-- Claim C6 (confirmed): on success, the multi-view builder's
visibility masks satisfy — one mask per view whose length equals the
flat trace count, with exactly one `true` per body of its view, and the
`true` positions of the masks partition the flat trace list (every
position is `true` in exactly one view's mask). -/
theorem C6_visibility_masks (respond : HorizonsRequest → String)
    (cfg : List Body) (cidxs : List ℤ) (traces : List Trace) (masks : List (List Bool))
    (hnd : cidxs.Nodup)
    (hok : (create_multi_center_visualization respond cfg cidxs).2 = .ok (traces, masks)) :
    masks.length = cidxs.length ∧
    (∀ m ∈ masks, m.length = traces.length) ∧
    (∀ m ∈ masks, m.count true = cfg.length) ∧
    (∀ p : ℕ, p < traces.length →
      ∃! v : ℕ, ∃ m, masks[v]? = some m ∧ m[p]? = some true) := by
  unfold create_multi_center_visualization at hok
  cases hres : resolveCenters cfg cidxs with
  | none => rw [hres] at hok; simp at hok
  | some bs =>
    rw [hres] at hok
    rcases hm : multiViewLoop respond cfg cidxs 0 with ⟨mcalls, mres⟩
    rw [hm] at hok
    cases mres with
    | error e => simp at hok
    | ok q =>
      obtain ⟨tr, groups⟩ := q
      cases cidxs with
      | nil => simp at hok
      | cons c rest =>
        simp only [] at hok
        injection hok with hpq
        injection hpq with htr hmk
        obtain ⟨hlen, hgr, hex, _⟩ :=
          multiViewLoop_ok respond cfg (c :: rest) 0 mcalls tr groups hm
        obtain ⟨b0, hb0⟩ := hex c (by simp)
        have hcfg : cfg ≠ [] := by
          intro hc
          rw [hc, pyGet_nil] at hb0
          exact absurd hb0 (by simp)
        have hn : 0 < cfg.length := List.length_pos.mpr hcfg
        subst htr
        have hmasks : masks = groups.map (buildMask tr.length) := hmk.symm
        have hbound : ∀ v : ℕ, v < (c :: rest).length →
            v * cfg.length + cfg.length ≤ tr.length := by
          intro v hv
          have h1 : (v + 1) * cfg.length ≤ (c :: rest).length * cfg.length :=
            Nat.mul_le_mul_right cfg.length (by omega)
          calc v * cfg.length + cfg.length = (v + 1) * cfg.length := by ring
            _ ≤ (c :: rest).length * cfg.length := h1
            _ = tr.length := hlen.symm
        have hmlen : masks.length = (c :: rest).length := by
          rw [hmasks, hgr]
          simp
        have hmask : ∀ v : ℕ, v < (c :: rest).length →
            masks[v]? = some (buildMask tr.length (List.range' (v * cfg.length) cfg.length)) := by
          intro v hv
          rw [hmasks, hgr, List.getElem?_map, List.getElem?_map, List.getElem?_range hv]
          simp
        refine ⟨hmlen, ?_, ?_, ?_⟩
        · intro m hmem
          rw [hmasks] at hmem
          obtain ⟨g, hg, rfl⟩ := List.mem_map.mp hmem
          exact buildMask_length _ _
        · intro m hmem
          rw [hmasks, hgr] at hmem
          simp only [List.map_map] at hmem
          obtain ⟨v, hv, rfl⟩ := List.mem_map.mp hmem
          rw [List.mem_range] at hv
          simp only [Function.comp_apply, Nat.zero_add]
          exact buildMask_count tr.length (v * cfg.length) cfg.length (hbound v (by simpa))
        · intro p hp
          have hdivlt : p / cfg.length < (c :: rest).length := by
            rw [Nat.div_lt_iff_lt_mul hn]
            calc p < tr.length := hp
              _ = (c :: rest).length * cfg.length := hlen
          have hlb : p / cfg.length * cfg.length ≤ p := Nat.div_mul_le_self p cfg.length
          have hub : p < p / cfg.length * cfg.length + cfg.length := by
            have hdm := Nat.div_add_mod p cfg.length
            have hml := Nat.mod_lt p hn
            have hx := Nat.add_lt_add_left hml (cfg.length * (p / cfg.length))
            rw [hdm] at hx
            calc p < cfg.length * (p / cfg.length) + cfg.length := hx
              _ = p / cfg.length * cfg.length + cfg.length := by ring_nf
          refine ⟨p / cfg.length, ⟨_, hmask _ hdivlt, ?_⟩, ?_⟩
          · exact (buildMask_true_iff tr.length _ cfg.length p hp).mpr ⟨hlb, hub⟩
          · rintro v ⟨m, hmv, hmp⟩
            have hvlt : v < (c :: rest).length := by
              by_contra hge
              push_neg at hge
              rw [List.getElem?_eq_none (by rw [hmlen]; omega)] at hmv
              exact absurd hmv (by simp)
            rw [hmask v hvlt] at hmv
            injection hmv with hmv2
            subst hmv2
            obtain ⟨hl, hu⟩ := (buildMask_true_iff tr.length _ cfg.length p hp).mp hmp
            have hle : v ≤ p / cfg.length := (Nat.le_div_iff_mul_le hn).mpr hl
            have hlt2 : p / cfg.length < v + 1 := by
              rw [Nat.div_lt_iff_lt_mul hn]
              calc p < v * cfg.length + cfg.length := hu
                _ = (v + 1) * cfg.length := by ring
            omega

/-- Claim C6 witness: the fixture two-view run satisfies the mask
invariants concretely. -/
theorem C6_visibility_masks_witness :
    ([0, 1] : List ℤ).Nodup ∧
    (create_multi_center_visualization demoRespond demoCfg [0, 1]).2
      = .ok (demoMultiTraces, demoMasks) ∧
    (demoMasks.length = ([0, 1] : List ℤ).length ∧
     (∀ m ∈ demoMasks, m.length = demoMultiTraces.length) ∧
     (∀ m ∈ demoMasks, m.count true = demoCfg.length) ∧
     (∀ p : ℕ, p < demoMultiTraces.length →
        ∃! v : ℕ, ∃ m, demoMasks[v]? = some m ∧ m[p]? = some true)) :=
  ⟨by decide, by decide,
   C6_visibility_masks demoRespond demoCfg [0, 1] demoMultiTraces demoMasks
     (by decide) (by decide)⟩

/-! ## Claim C9 -/

/-- Claim C9 (confirmed): on success with non-negative reference
indices, the multi-view builder issues, for each view in order, exactly
one fetch per body that is not that view's reference — so a
non-reference body is fetched once per view and the total number of
fetches is views × (bodies − 1); each view's fetches are issued afresh
with that view's center id, and no result is shared between views. -/
theorem C9_fetch_per_view (respond : HorizonsRequest → String)
    (cfg : List Body) (cidxs : List ℤ)
    (res : List Trace × List (List Bool))
    (hr : ∀ ci ∈ cidxs, 0 ≤ ci)
    (hok : (create_multi_center_visualization respond cfg cidxs).2 = .ok res) :
    (create_multi_center_visualization respond cfg cidxs).1
      = cidxs.flatMap (fun ci => (cfg.eraseIdx ci.toNat).map
          (fun b => defaultRequest b.id ((cfg.getD ci.toNat ⟨"", "", ""⟩).id))) ∧
    (create_multi_center_visualization respond cfg cidxs).1.length
      = cidxs.length * (cfg.length - 1) := by
  unfold create_multi_center_visualization at hok ⊢
  cases hres : resolveCenters cfg cidxs with
  | none => rw [hres] at hok; simp at hok
  | some bs =>
    rw [hres] at hok
    rcases hm : multiViewLoop respond cfg cidxs 0 with ⟨mcalls, mres⟩
    rw [hm] at hok
    cases mres with
    | error e => simp at hok
    | ok q =>
      obtain ⟨tr, groups⟩ := q
      cases cidxs with
      | nil => simp at hok
      | cons c rest =>
        simp only []
        obtain ⟨_, _, hex, hcalls⟩ :=
          multiViewLoop_ok respond cfg (c :: rest) 0 mcalls tr groups hm
        have hc1 : mcalls = (c :: rest).flatMap (fun ci => (cfg.eraseIdx ci.toNat).map
            (fun b => defaultRequest b.id ((cfg.getD ci.toNat ⟨"", "", ""⟩).id))) :=
          hcalls hr
        refine ⟨hc1, ?_⟩
        rw [hc1]
        refine flatMap_length_const (cfg.length - 1) (c :: rest) _ ?_
        intro ci hci
        obtain ⟨b, hb⟩ := hex ci hci
        have h0 : (0 : ℤ) ≤ ci := hr ci hci
        have hidx : ci.toNat < cfg.length := by
          by_contra hge
          push_neg at hge
          rw [show ci = ((ci.toNat : ℕ) : ℤ) from by omega, pyGet_nonneg,
            List.getElem?_eq_none hge] at hb
          exact absurd hb (by simp)
        rw [List.length_map, List.length_eraseIdx]
        simp [hidx]

/-- Claim C9 witness: the fixture two-view run issues exactly
2 × (3 − 1) = 4 requests — each non-reference body once per view with
that view's center. -/
theorem C9_fetch_per_view_witness :
    (create_multi_center_visualization demoRespond demoCfg [0, 1]).1
      = ([0, 1] : List ℤ).flatMap (fun ci => (demoCfg.eraseIdx ci.toNat).map
          (fun b => defaultRequest b.id ((demoCfg.getD ci.toNat ⟨"", "", ""⟩).id))) ∧
    (create_multi_center_visualization demoRespond demoCfg [0, 1]).1.length
      = ([0, 1] : List ℤ).length * (demoCfg.length - 1) :=
  C9_fetch_per_view demoRespond demoCfg [0, 1] (demoMultiTraces, demoMasks)
    (by decide) (by decide)

end Orbigen
